import Mathlib

/-!
# Verification of the wobbly-sphere audio-analysis core

A shallow embedding of the audio-analysis pipeline of this repository
(`src/useAudioAnalyzer.ts` and its near-duplicate variants, plus the
audio-reactive `useFrame` consumer).  JavaScript numbers are idealised as
exact rationals (`ℚ`) where the computation is rational, and as reals (`ℝ`)
where a square root occurs.  `Uint8Array` frames are modelled as `List ℕ`
whose entries are bytes (`≤ 255`).
-/

set_option autoImplicit false

namespace WobblySphere

/-- State of a Web Audio `AudioContext` (`audioContext.state`). -/
inductive CtxState where
  | suspended
  | running
  | closed
deriving DecidableEq, Repr

/-- `true` exactly on the `'running'` context state. -/
def CtxState.isRunning : CtxState → Bool
  | .running => true
  | _ => false

/-! ## Band extractor (`calculateBand`, useAudioAnalyzer.ts lines 45-56)

The JS loop `for (let i = startIndex; i < endIndex && i < dataArray.length; i++)
sum += dataArray[i]` visits exactly the indices `startIndex, …, min endIndex
dataArray.length - 1`; out-of-range reads never happen.  `count` is
`endIndex - startIndex` and the result is `sum / count / 255`. -/

/-- The loop sum of `calculateBand`: magnitudes at indices
`startIndex ≤ i < min endIndex frame.length`. -/
def bandSum (frame : List ℕ) (startIndex endIndex : ℕ) : ℕ :=
  (List.range' startIndex (min endIndex frame.length - startIndex)).foldl
    (fun acc i => acc + frame.getD i 0) 0

/-- `calculateBand` from useAudioAnalyzer.ts: loop sum divided by
`count = endIndex - startIndex`, then by 255. -/
def calculateBand (frame : List ℕ) (startIndex endIndex : ℕ) : ℚ :=
  (bandSum frame startIndex endIndex : ℚ) / ((endIndex - startIndex : ℕ) : ℚ) / 255

/-- `rawBass = calculateBand(dataArray, 0, 10)` (line 119). -/
def rawBass (frame : List ℕ) : ℚ := calculateBand frame 0 10

/-- `rawMid = calculateBand(dataArray, 10, 40)` (line 120). -/
def rawMid (frame : List ℕ) : ℚ := calculateBand frame 10 40

/-- `rawTreble = calculateBand(dataArray, 40, 128)` (line 121). -/
def rawTreble (frame : List ℕ) : ℚ := calculateBand frame 40 128

/-! ## RMS volume (useAudioAnalyzer.ts lines 111-116) -/

/-- The loop `for i: sum += dataArray[i] * dataArray[i]`. -/
def sumSquares (frame : List ℕ) : ℕ :=
  frame.foldl (fun acc x => acc + x * x) 0

/-- `rawVolume = Math.sqrt(sum / dataArray.length) / 255` (line 116). -/
noncomputable def rawVolume (frame : List ℕ) : ℝ :=
  Real.sqrt ((sumSquares frame : ℝ) / (frame.length : ℝ)) / 255

/-! ## Dominant frequency (useAudioAnalyzer.ts lines 138-149, 160) -/

/-- The scan `if (dataArray[i] > maxValue) { maxValue = dataArray[i];
maxIndex = i }`, processing the remaining samples with the current position
`i` and accumulator `(maxIndex, maxValue)`. -/
def maxBinGo : List ℕ → ℕ → ℕ → ℕ → ℕ × ℕ
  | [], _, maxIdx, maxVal => (maxIdx, maxVal)
  | x :: rest, i, maxIdx, maxVal =>
      if x > maxVal then maxBinGo rest (i + 1) i x
      else maxBinGo rest (i + 1) maxIdx maxVal

/-- `maxIndex` after the full scan, starting from `maxIndex = 0, maxValue = 0`. -/
def maxIndex (frame : List ℕ) : ℕ := (maxBinGo frame 0 0 0).1

/-- `frequency = (maxIndex / dataArray.length) * (sampleRate / 2)`
(lines 147-149). -/
def dominantFrequency (frame : List ℕ) (sampleRate : ℚ) : ℚ :=
  ((maxIndex frame : ℚ) / (frame.length : ℚ)) * (sampleRate / 2)

/-- The published `frequency` field is `frequency / 1000` (line 160), in kHz. -/
def publishedFrequency (frame : List ℕ) (sampleRate : ℚ) : ℚ :=
  dominantFrequency frame sampleRate / 1000

/-! ## Smoothing filter (useAudioAnalyzer.ts lines 20-34, 123-136) -/

/-- The four per-channel smoothing constants (lines 21-26). -/
structure Factors where
  volume : ℚ
  bass : ℚ
  mid : ℚ
  treble : ℚ
deriving DecidableEq, Repr

/-- `smoothingFactors = { volume: 0.8, bass: 0.85, mid: 0.7, treble: 0.6 }`. -/
def smoothingFactors : Factors :=
  { volume := 4/5, bass := 17/20, mid := 7/10, treble := 3/5 }

/-- One exponential-moving-average update over `ℚ`:
`smoothed * factor + raw * (1 - factor)`. -/
def smoothStep (factor smoothed raw : ℚ) : ℚ :=
  smoothed * factor + raw * (1 - factor)

/-- One exponential-moving-average update over `ℝ` (the volume channel mixes
the irrational RMS into its smoothed value). -/
def smoothStepR (factor smoothed raw : ℝ) : ℝ :=
  smoothed * factor + raw * (1 - factor)

/-- The cross-tick smoothed values (`smoothedValues` ref, lines 29-34); the
volume channel carries the real-valued RMS, the bands are rational. -/
structure SmoothState where
  volume : ℝ
  bass : ℚ
  mid : ℚ
  treble : ℚ

/-- The smoothing block of `analyzeAudio` (lines 123-136), verbatim:
each channel is updated as `prev * factor + raw * (1 - factor)` with its own
constant from `smoothingFactors`. -/
noncomputable def smoothUpdate (st : SmoothState) (rawVol : ℝ)
    (rawB rawM rawT : ℚ) : SmoothState :=
  { volume := st.volume * (smoothingFactors.volume : ℝ)
      + rawVol * (1 - (smoothingFactors.volume : ℝ))
    bass := st.bass * smoothingFactors.bass + rawB * (1 - smoothingFactors.bass)
    mid := st.mid * smoothingFactors.mid + rawM * (1 - smoothingFactors.mid)
    treble := st.treble * smoothingFactors.treble
      + rawT * (1 - smoothingFactors.treble) }

/-- Iterated smoothing of one channel under a constant raw input `v`. -/
def smoothIter (factor v s : ℚ) : ℕ → ℚ
  | 0 => s
  | n + 1 => smoothStep factor (smoothIter factor v s n) v

/-! ## The `isPlaying` publications of the primary analyzer
(src/useAudioAnalyzer.ts)

Every `setAudioData` call in that file fixes the `isPlaying` field from the
media element's `paused` flag and the context state at that moment. -/

/-- `isActuallyPlaying` of `analyzeAudio` (lines 152-156):
`Boolean(audioRef.current && !audioRef.current.paused &&
audioContextRef.current?.state === 'running')`. -/
def tickIsPlaying (audioPresent paused : Bool) (ctx : CtxState) : Bool :=
  audioPresent && !paused && ctx.isRunning

/-- `isActuallyPlaying` of the `'play'` and `'statechange'` handlers
(lines 236-237 and 300-301): `!audio.paused && audioContext.state === 'running'`. -/
def eventIsPlaying (paused : Bool) (ctx : CtxState) : Bool :=
  !paused && ctx.isRunning

/-- `isPlaying` as published by the legacy analyzer variant
(src/unnamed/part_002, line 116):
`audioRef.current ? !audioRef.current.paused : false` — no context-state
conjunct. -/
def legacyTickIsPlaying (audioPresent paused : Bool) : Bool :=
  audioPresent && !paused

/-- What the last publication recorded: the published `isPlaying` plus the
`paused` flag and context state observed when it was computed. -/
structure PubState where
  isPlaying : Bool
  paused : Bool
  ctx : CtxState
deriving DecidableEq, Repr

/-- The spec's `PlaybackState` enumeration (§3). -/
inductive PlaybackState where
  | uninitialized
  | awaitingUserGesture
  | starting
  | running
  | pausedState
  | suspendedState
  | closedState
deriving DecidableEq, Repr

/-- The playback-gate state determined by the observed media/context flags:
`Running` exactly when the element is unpaused and the context is running;
otherwise the context state (or the pause) names the non-running state. -/
def gateOf (st : PubState) : PlaybackState :=
  match st.ctx with
  | .closed => .closedState
  | .suspended => .suspendedState
  | .running => if st.paused then .pausedState else .running

/-- The publication events of the primary analyzer that write `audioData`:
a sampler tick (lines 158-165), the `'play'` handler (line 238), the
`'pause'` handler (line 247), and the `'statechange'` handler (line 302).
Each carries the environment flags observed at that moment. -/
inductive AnalyzerEvent where
  | tick (audioPresent paused : Bool) (ctx : CtxState)
  | playEvt (paused : Bool) (ctx : CtxState)
  | pauseEvt (ctx : CtxState)
  | stateChange (paused : Bool) (ctx : CtxState)

/-- Effect of one publication on the published state.  The `'pause'` handler
fires with the element paused and writes `isPlaying: false`. -/
def applyEvent (_st : PubState) : AnalyzerEvent → PubState
  | .tick audioPresent paused ctx =>
      { isPlaying := tickIsPlaying audioPresent paused ctx
        paused := paused, ctx := ctx }
  | .playEvt paused ctx =>
      { isPlaying := eventIsPlaying paused ctx, paused := paused, ctx := ctx }
  | .pauseEvt ctx => { isPlaying := false, paused := true, ctx := ctx }
  | .stateChange paused ctx =>
      { isPlaying := eventIsPlaying paused ctx, paused := paused, ctx := ctx }

/-- Invariant: a published `isPlaying = true` certifies the gate is `Running`. -/
def pubInv (st : PubState) : Prop :=
  st.isPlaying = true → gateOf st = PlaybackState.running

instance (st : PubState) : Decidable (pubInv st) := by
  unfold pubInv; infer_instance

/-! ## `ensureAudioContextActive` (useAudioAnalyzer.ts lines 58-97)

Modelled as a function of the current refs and of the state the freshly
constructed replacement context would start in (the browser decides it; a
new `AudioContext` may start `'suspended'` under autoplay policy).  The
`'suspended'` branch awaits `resume()`; if that promise resolves (the
non-throwing case modelled here) the context is running afterwards. -/

/-- Returns the boolean result and the context state afterwards.
Branches in source order: missing refs → `false`; `'closed'` → rebuild the
graph around a fresh context and `return true`; `'suspended'` → resume and
`return true`; otherwise `return state === 'running'`. -/
def ensureAudioContextActive (audioPresent : Bool) (ctx : Option CtxState)
    (freshState : CtxState) : Bool × Option CtxState :=
  if !audioPresent then (false, ctx)
  else
    match ctx with
    | none => (false, none)
    | some .closed => (true, some freshState)
    | some .suspended => (true, some .running)
    | some .running => (true, some .running)

/-! ## Gesture unlock (`handleUserInteraction`, useAudioAnalyzer.ts
lines 383-449)

One handler is registered (with capture) for all five document-level gesture
types — click, keydown, touchstart, mousedown, pointerdown — and the five
registrations are added and removed together, so a single `listeners` flag
models the whole set.  The handler awaits `ensureAudioContextActive()`, then
`audio.play()`; if both resolve it removes every gesture listener, otherwise
the `catch` swallows the error and the listeners stay for a retry. -/

/-- Gesture-unlock portion of the session state. -/
structure UnlockState where
  listeners : Bool
  ctxRunning : Bool
  paused : Bool
  unlocks : ℕ
deriving DecidableEq, Repr

/-- The gate is `Running` when the element is unpaused and the context runs. -/
def UnlockState.isRunningState (st : UnlockState) : Bool :=
  !st.paused && st.ctxRunning

/-- Environment outcome of one qualifying gesture: whether
`ensureAudioContextActive()` rejects, whether the context is running after it
resolves, and whether `audio.play()` rejects. -/
structure Gesture where
  ensureThrows : Bool
  ctxRunningAfter : Bool
  playThrows : Bool
deriving DecidableEq, Repr

/-- `handleUserInteraction`: fires only while the listeners are registered.
A rejection from either awaited call lands in the `catch` block and changes
nothing modelled here; on success the element plays unmuted and all five
listeners are removed. -/
def handleGesture (st : UnlockState) (g : Gesture) : UnlockState :=
  if !st.listeners then st
  else if g.ensureThrows then st
  else
    let st1 : UnlockState := { st with ctxRunning := g.ctxRunningAfter }
    if g.playThrows then st1
    else { st1 with paused := false, listeners := false, unlocks := st.unlocks + 1 }

/-- A whole session of gestures. -/
def gestureRun (st : UnlockState) (gs : List Gesture) : UnlockState :=
  gs.foldl handleGesture st

/-! ## Sampling loop scheduling (useAudioAnalyzer.ts lines 180-187 and the
`useEffect` cleanup, lines 555-572)

`analyzeAudio` ends with an unconditional
`animationFrameRef.current = requestAnimationFrame(analyzeAudio)`; the
cleanup calls `cancelAnimationFrame` on the pending handle.  A scheduled
callback fires at most once; a cancelled one never fires. -/

/-- Loop state: whether a frame callback is pending, and how many
`setAudioData` publications the loop has made. -/
structure LoopState where
  scheduled : Bool
  updates : ℕ
deriving DecidableEq, Repr

/-- Scheduler events: a frame boundary (with the transient pause flag and
context state at that moment), or the teardown. -/
inductive LoopEvent where
  | frame (paused : Bool) (ctx : CtxState)
  | teardown

/-- A frame boundary runs the pending callback, if any: the tick publishes
one update and reschedules itself unconditionally (line 183) — the `paused`
flag and context state are not consulted for scheduling.  Teardown cancels
the pending callback (lines 561-563). -/
def loopStep (st : LoopState) : LoopEvent → LoopState
  | .frame _ _ =>
      if st.scheduled then { scheduled := true, updates := st.updates + 1 } else st
  | .teardown => { scheduled := false, updates := st.updates }

/-- A whole run of scheduler events. -/
def loopRun (st : LoopState) (evts : List LoopEvent) : LoopState :=
  evts.foldl loopStep st

/-! ## `initializeAudio` idempotence guard (useAudioAnalyzer.ts lines 189-225)

The function returns at once when `isInitializedRef.current` is set; the
whole creation prefix (audio element, context, analyzer, wiring, setting the
flag) is synchronous, so the check-then-set pair is atomic. -/

/-- Resources owned by one analyzer session. -/
structure InitState where
  initialized : Bool
  audioElems : ℕ
  contexts : ℕ
  analyzers : ℕ
  gestureListeners : ℕ
deriving DecidableEq, Repr

/-- A fresh session: nothing created yet. -/
def freshInit : InitState :=
  { initialized := false, audioElems := 0, contexts := 0, analyzers := 0
    gestureListeners := 0 }

/-- `initializeAudio`: early-return when already initialized; otherwise
create one audio element (line 194), one context (lines 207-209), one
analyzer node (line 211), set the flag (line 225), and register the five
document-level gesture listeners (lines 445-449). -/
def initializeAudio (st : InitState) : InitState :=
  if st.initialized then st
  else
    { initialized := true, audioElems := st.audioElems + 1
      contexts := st.contexts + 1, analyzers := st.analyzers + 1
      gestureListeners := st.gestureListeners + 5 }

/-! ## Consumer-side decay (`useFrame` of the audio-reactive sphere,
src/unnamed/part_004 lines 222-264; identical in part_003 and part_005)

`hasAudio = audioData.isPlaying && audioData.volume > 0.01`; when there is no
audio, each smoothed channel is multiplied by `fadeOutSpeed = 0.95`,
otherwise it is blended with the raw value by the `audioSmoothness` EMA. -/

/-- `hasAudio` (line 226): the published `isPlaying` and the silence
threshold `0.01`. -/
def hasAudio (isPlaying : Bool) (volume : ℚ) : Bool :=
  isPlaying && decide (volume > 1/100)

/-- Per-channel update of one non-skipped `useFrame` tick (lines 243-264):
pure decay by `0.95` when `hasAudio` is false, EMA blend otherwise. -/
def sphereStep (audio : Bool) (smoothing s raw : ℚ) : ℚ :=
  if audio then s * smoothing + raw * (1 - smoothing)
  else s * (19/20)

/-- Iterated decay ticks (`hasAudio` false throughout). -/
def decayIter (s : ℚ) : ℕ → ℚ
  | 0 => s
  | n + 1 => decayIter s n * (19/20)

/-! ## Helper lemmas: accumulation loops as list sums -/

/-- A `foldl` that only accumulates `f x` is the initial value plus a sum. -/
theorem foldl_add_eq_sum {α : Type} (f : α → ℕ) (l : List α) (init : ℕ) :
    l.foldl (fun acc x => acc + f x) init = init + (l.map f).sum := by
  induction l generalizing init with
  | nil => simp
  | cons x t ih => simp only [List.foldl_cons, List.map_cons, List.sum_cons, ih]; omega

/-- Summing `frame.getD i 0` over an in-range index window is summing the
corresponding sublist. -/
theorem rangeMap_getD_sum (frame : List ℕ) (s n : ℕ) (h : s + n ≤ frame.length) :
    ((List.range' s n).map (fun i => frame.getD i 0)).sum
      = ((frame.drop s).take n).sum := by
  induction n generalizing s with
  | zero => simp
  | succ n ih =>
    have hs : s < frame.length := by omega
    rw [show List.range' s (n + 1) = s :: List.range' (s + 1) n from rfl]
    simp only [List.map_cons, List.sum_cons]
    rw [List.getD_eq_getElem frame 0 hs, ih (s + 1) (by omega),
      List.drop_eq_getElem_cons hs, List.take_succ_cons, List.sum_cons]

/-- When the requested window fits inside the frame, the band loop sums
exactly the magnitudes of that window. -/
theorem bandSum_eq_sum (frame : List ℕ) (s e : ℕ) (he : e ≤ frame.length)
    (hse : s ≤ e) :
    bandSum frame s e = ((frame.drop s).take (e - s)).sum := by
  unfold bandSum
  rw [foldl_add_eq_sum, Nat.zero_add, min_eq_left he,
    rangeMap_getD_sum frame s (e - s) (by omega)]

/-- Every `getD` read of a byte frame is a byte. -/
theorem getD_le_255 (frame : List ℕ) (i : ℕ) (hb : ∀ x ∈ frame, x ≤ 255) :
    frame.getD i 0 ≤ 255 := by
  by_cases h : i < frame.length
  · rw [List.getD_eq_getElem frame 0 h]
    exact hb _ (frame.getElem_mem h)
  · rw [List.getD_eq_default frame 0 (by omega)]
    omega

/-- The band loop sum is at most `count * 255` on a byte frame. -/
theorem bandSum_le (frame : List ℕ) (s e : ℕ) (hb : ∀ x ∈ frame, x ≤ 255) :
    bandSum frame s e ≤ (e - s) * 255 := by
  unfold bandSum
  rw [foldl_add_eq_sum, Nat.zero_add]
  have h1 : ((List.range' s (min e frame.length - s)).map
      (fun i => frame.getD i 0)).sum
      ≤ ((List.range' s (min e frame.length - s)).map
        (fun i => frame.getD i 0)).length * 255 := by
    simpa [smul_eq_mul] using
      List.sum_le_card_nsmul
        ((List.range' s (min e frame.length - s)).map (fun i => frame.getD i 0))
        255 (by
          intro x hx
          obtain ⟨i, _, rfl⟩ := List.mem_map.1 hx
          exact getD_le_255 frame i hb)
  have h2 : ((List.range' s (min e frame.length - s)).map
      (fun i => frame.getD i 0)).length ≤ e - s := by
    simp only [List.length_map, List.length_range']
    omega
  calc ((List.range' s (min e frame.length - s)).map
      (fun i => frame.getD i 0)).sum ≤ _ * 255 := h1
    _ ≤ (e - s) * 255 := Nat.mul_le_mul_right 255 h2

/-- A band value is never negative. -/
theorem calculateBand_nonneg (frame : List ℕ) (s e : ℕ) :
    0 ≤ calculateBand frame s e := by
  unfold calculateBand
  positivity

/-- A band value of a byte frame is at most one. -/
theorem calculateBand_le_one (frame : List ℕ) (s e : ℕ) (hse : s < e)
    (hb : ∀ x ∈ frame, x ≤ 255) :
    calculateBand frame s e ≤ 1 := by
  unfold calculateBand
  have hc : (0 : ℚ) < ((e - s : ℕ) : ℚ) := by
    have h0 : 0 < e - s := by omega
    exact_mod_cast h0
  have hB : (bandSum frame s e : ℚ) ≤ ((e - s : ℕ) : ℚ) * 255 := by
    have h1 := bandSum_le frame s e hb
    have h2 : (bandSum frame s e : ℚ) ≤ (((e - s) * 255 : ℕ) : ℚ) := by
      exact_mod_cast h1
    calc (bandSum frame s e : ℚ) ≤ (((e - s) * 255 : ℕ) : ℚ) := h2
      _ = ((e - s : ℕ) : ℚ) * 255 := by push_cast; ring
  rw [div_div, div_le_one (by positivity)]
  linarith

/-- The squared-sample loop as a mapped sum. -/
theorem sumSquares_eq_sum (frame : List ℕ) :
    sumSquares frame = (frame.map fun x => x * x).sum := by
  unfold sumSquares
  rw [foldl_add_eq_sum, Nat.zero_add]

/-- The squared-sample sum of a byte frame is at most `length * 255²`. -/
theorem sumSquares_le (frame : List ℕ) (hb : ∀ x ∈ frame, x ≤ 255) :
    sumSquares frame ≤ frame.length * 65025 := by
  rw [sumSquares_eq_sum]
  have h1 := List.sum_le_card_nsmul (frame.map fun x => x * x) 65025 (by
    intro x hx
    obtain ⟨y, hy, rfl⟩ := List.mem_map.1 hx
    calc y * y ≤ 255 * 255 := Nat.mul_le_mul (hb y hy) (hb y hy)
      _ = 65025 := by norm_num)
  simpa [smul_eq_mul] using h1

/-- The raw RMS volume is never negative. -/
theorem rawVolume_nonneg (frame : List ℕ) : 0 ≤ rawVolume frame := by
  unfold rawVolume
  positivity

/-- The raw RMS volume of a byte frame is at most one. -/
theorem rawVolume_le_one (frame : List ℕ) (hb : ∀ x ∈ frame, x ≤ 255) :
    rawVolume frame ≤ 1 := by
  unfold rawVolume
  rw [div_le_one (by norm_num : (0 : ℝ) < 255)]
  have h1 : (sumSquares frame : ℝ) / (frame.length : ℝ) ≤ 65025 := by
    rcases Nat.eq_zero_or_pos frame.length with h | h
    · rw [List.length_eq_zero] at h
      subst h
      simp [sumSquares]
    · rw [div_le_iff₀ (by exact_mod_cast h)]
      have h2 := sumSquares_le frame hb
      have h3 : (sumSquares frame : ℝ) ≤ ((frame.length * 65025 : ℕ) : ℝ) := by
        exact_mod_cast h2
      calc (sumSquares frame : ℝ) ≤ ((frame.length * 65025 : ℕ) : ℝ) := h3
        _ = 65025 * (frame.length : ℝ) := by push_cast; ring
  calc Real.sqrt ((sumSquares frame : ℝ) / (frame.length : ℝ))
      ≤ Real.sqrt 65025 := Real.sqrt_le_sqrt h1
    _ = 255 := by
        rw [show (65025 : ℝ) = 255 ^ 2 by norm_num, Real.sqrt_sq (by norm_num)]

/-- One EMA update keeps a rational channel inside `[0, 1]`. -/
theorem smoothStep_mem (f s r : ℚ) (hf0 : 0 ≤ f) (hf1 : f ≤ 1) (hs0 : 0 ≤ s)
    (hs1 : s ≤ 1) (hr0 : 0 ≤ r) (hr1 : r ≤ 1) :
    0 ≤ smoothStep f s r ∧ smoothStep f s r ≤ 1 := by
  unfold smoothStep
  constructor <;> nlinarith

/-- One EMA update keeps a real channel inside `[0, 1]`. -/
theorem smoothStepR_mem (f s r : ℝ) (hf0 : 0 ≤ f) (hf1 : f ≤ 1) (hs0 : 0 ≤ s)
    (hs1 : s ≤ 1) (hr0 : 0 ≤ r) (hr1 : r ≤ 1) :
    0 ≤ smoothStepR f s r ∧ smoothStepR f s r ≤ 1 := by
  unfold smoothStepR
  constructor <;> nlinarith

/-! ## Helper lemmas: the maximum-bin scan -/

/-- Once the accumulator dominates every remaining sample, the scan keeps it. -/
theorem maxBinGo_no_update (t : List ℕ) (i maxIdx maxVal : ℕ)
    (h : ∀ x ∈ t, x ≤ maxVal) :
    maxBinGo t i maxIdx maxVal = (maxIdx, maxVal) := by
  induction t generalizing i with
  | nil => rfl
  | cons x r ih =>
    have hx : ¬ x > maxVal := not_lt.2 (h x (by simp))
    simp only [maxBinGo, if_neg hx]
    exact ih (i + 1) fun y hy => h y (by simp [hy])

/-- Scanning a window of samples strictly below `m`, then `m`, then samples
at most `m`, lands on `m` at the position where it occurs, provided the
accumulator value is still below `m`. -/
theorem maxBinGo_finds (m : ℕ) (post : List ℕ) (hpost : ∀ x ∈ post, x ≤ m)
    (pre : List ℕ) :
    ∀ (i maxIdx maxVal : ℕ), maxVal < m → (∀ x ∈ pre, x < m) →
      maxBinGo (pre ++ m :: post) i maxIdx maxVal = (i + pre.length, m) := by
  induction pre with
  | nil =>
    intro i maxIdx maxVal hmv _
    simp only [List.nil_append, maxBinGo, if_pos hmv]
    rw [maxBinGo_no_update post (i + 1) i m hpost]
    simp
  | cons x r ih =>
    intro i maxIdx maxVal hmv hpre
    have hx : x < m := hpre x (by simp)
    simp only [List.cons_append, maxBinGo, List.append_eq]
    by_cases hcase : x > maxVal
    · rw [if_pos hcase, ih (i + 1) i x hx fun y hy => hpre y (by simp [hy])]
      simp only [List.length_cons, Prod.mk.injEq, and_true]
      omega
    · rw [if_neg hcase, ih (i + 1) maxIdx maxVal hmv fun y hy => hpre y (by simp [hy])]
      simp only [List.length_cons, Prod.mk.injEq, and_true]
      omega

/-- On a frame with a unique maximal sample, the scan returns its index. -/
theorem maxIndex_single_max (pre post : List ℕ) (m : ℕ)
    (hpre : ∀ x ∈ pre, x < m) (hpost : ∀ x ∈ post, x < m) :
    maxIndex (pre ++ m :: post) = pre.length := by
  unfold maxIndex
  rcases Nat.eq_zero_or_pos m with hm | hm
  · subst hm
    have hpre0 : pre = [] := by
      cases pre with
      | nil => rfl
      | cons x r => exact absurd (hpre x (by simp)) (Nat.not_lt_zero x)
    have hpost0 : post = [] := by
      cases post with
      | nil => rfl
      | cons x r => exact absurd (hpost x (by simp)) (Nat.not_lt_zero x)
    subst hpre0
    subst hpost0
    decide
  · rw [maxBinGo_finds m post (fun x hx => le_of_lt (hpost x hx)) pre 0 0 0 hm hpre]
    simp

/-! ## Helper lemmas: smoothing convergence and decay -/

/-- Closed form of the smoothing error under a constant raw input. -/
theorem smoothIter_sub (f v s : ℚ) (n : ℕ) :
    smoothIter f v s n - v = f ^ n * (s - v) := by
  induction n with
  | zero => simp [smoothIter]
  | succ n ih =>
    simp only [smoothIter, smoothStep, pow_succ]
    linear_combination f * ih

/-- EMA with a factor in `[0, 1)` converges to the constant raw input. -/
theorem smoothIter_converges (f : ℚ) (hf0 : 0 ≤ f) (hf1 : f < 1) (s v ε : ℚ)
    (hε : 0 < ε) :
    ∃ n, |smoothIter f v s n - v| < ε := by
  obtain ⟨n, hn⟩ :=
    exists_pow_lt_of_lt_one (x := ε / (|s - v| + 1)) (by positivity) hf1
  refine ⟨n, ?_⟩
  rw [smoothIter_sub, abs_mul, abs_pow, abs_of_nonneg hf0]
  have habs : (0 : ℚ) ≤ |s - v| := abs_nonneg _
  have hpow : (0 : ℚ) ≤ f ^ n := pow_nonneg hf0 n
  calc f ^ n * |s - v| ≤ f ^ n * (|s - v| + 1) := by nlinarith
    _ < (ε / (|s - v| + 1)) * (|s - v| + 1) :=
        mul_lt_mul_of_pos_right hn (by positivity)
    _ = ε := div_mul_cancel₀ ε (by positivity)

/-- Closed form of iterated decay. -/
theorem decayIter_eq (s : ℚ) (n : ℕ) : decayIter s n = s * (19/20) ^ n := by
  induction n with
  | zero => simp [decayIter]
  | succ n ih => rw [decayIter, ih, pow_succ]; ring

/-- Decay keeps a positive channel positive. -/
theorem decayIter_pos (s : ℚ) (hs : 0 < s) (n : ℕ) : 0 < decayIter s n := by
  rw [decayIter_eq]
  positivity

/-- Decay keeps a nonnegative channel nonnegative. -/
theorem decayIter_nonneg (s : ℚ) (hs : 0 ≤ s) (n : ℕ) : 0 ≤ decayIter s n := by
  rw [decayIter_eq]
  positivity

/-- From a positive start, every decay tick strictly decreases the channel. -/
theorem decayIter_strict (s : ℚ) (hs : 0 < s) (n : ℕ) :
    decayIter s (n + 1) < decayIter s n := by
  have h := decayIter_pos s hs n
  rw [decayIter]
  nlinarith

/-- From a nonnegative start, no decay tick ever increases the channel. -/
theorem decayIter_mono (s : ℚ) (hs : 0 ≤ s) (n : ℕ) :
    decayIter s (n + 1) ≤ decayIter s n := by
  have h := decayIter_nonneg s hs n
  rw [decayIter]
  nlinarith

/-- Iterated decay converges to zero. -/
theorem decayIter_converges (s : ℚ) (hs : 0 ≤ s) (ε : ℚ) (hε : 0 < ε) :
    ∃ n, decayIter s n < ε := by
  obtain ⟨n, hn⟩ :=
    exists_pow_lt_of_lt_one (x := ε / (s + 1)) (by positivity)
      (by norm_num : (19/20 : ℚ) < 1)
  refine ⟨n, ?_⟩
  rw [decayIter_eq]
  have hpow : (0 : ℚ) ≤ (19/20 : ℚ) ^ n := by positivity
  calc s * (19/20) ^ n ≤ (s + 1) * (19/20) ^ n := by nlinarith
    _ < (s + 1) * (ε / (s + 1)) := by
        exact mul_lt_mul_of_pos_left hn (by positivity)
    _ = ε := mul_div_cancel₀ ε (by positivity)

/-! ## Helper lemmas: reachability invariants of the event models -/

/-- Every publication of the primary analyzer establishes the `isPlaying`
invariant, whatever the previous published state was. -/
theorem applyEvent_establishes (st : PubState) (e : AnalyzerEvent) :
    pubInv (applyEvent st e) := by
  cases e with
  | tick audioPresent paused ctx =>
      cases audioPresent <;> cases paused <;> cases ctx <;>
        simp only [applyEvent] <;> decide
  | playEvt paused ctx =>
      cases paused <;> cases ctx <;> simp only [applyEvent] <;> decide
  | pauseEvt ctx => cases ctx <;> simp only [applyEvent] <;> decide
  | stateChange paused ctx =>
      cases paused <;> cases ctx <;> simp only [applyEvent] <;> decide

/-- The `isPlaying` invariant holds in every state reachable by publications. -/
theorem pubInv_trace (init : PubState) (h : pubInv init)
    (evts : List AnalyzerEvent) :
    pubInv (List.foldl applyEvent init evts) := by
  induction evts generalizing init with
  | nil => exact h
  | cons e t ih => exact ih (applyEvent init e) (applyEvent_establishes init e)

/-- Gesture-unlock invariant: at most one unlock has happened, and none yet
while the listeners are still registered. -/
def unlockInv (st : UnlockState) : Prop :=
  st.unlocks ≤ 1 ∧ (st.listeners = true → st.unlocks = 0)

/-- One gesture preserves the unlock invariant. -/
theorem handleGesture_inv (st : UnlockState) (g : Gesture) (h : unlockInv st) :
    unlockInv (handleGesture st g) := by
  obtain ⟨h1, h2⟩ := h
  unfold handleGesture unlockInv
  split_ifs with hl he hp
  · exact ⟨h1, h2⟩
  · exact ⟨h1, h2⟩
  · exact ⟨h1, h2⟩
  · have hlt : st.listeners = true := by
      revert hl
      cases st.listeners <;> simp
    simp [h2 hlt]

/-- A whole gesture session preserves the unlock invariant. -/
theorem gestureRun_inv (st : UnlockState) (h : unlockInv st)
    (gs : List Gesture) : unlockInv (gestureRun st gs) := by
  induction gs generalizing st with
  | nil => exact h
  | cons g t ih => exact ih (handleGesture st g) (handleGesture_inv st g h)

/-- Once no frame callback is pending, scheduler events change nothing. -/
theorem loopRun_stopped (st : LoopState) (h : st.scheduled = false)
    (evts : List LoopEvent) : loopRun st evts = st := by
  induction evts generalizing st with
  | nil => rfl
  | cons e t ih =>
    have hstep : loopStep st e = st := by
      cases e with
      | frame paused ctx => simp [loopStep, h]
      | teardown =>
          cases st with
          | mk sch upd => simp_all [loopStep]
    calc loopRun st (e :: t) = loopRun (loopStep st e) t := rfl
      _ = loopRun st t := by rw [hstep]
      _ = st := ih st h

/-! ## Claim theorems -/

/-- Claim C2: for every valid SpectrumFrame (each magnitude a byte), the raw
RMS volume and each raw band value lie in `[0, 1]`, and each channel's
smoothing update (with its own factor from `smoothingFactors`) maps values in
`[0, 1]` back into `[0, 1]`, so every numeric field of the published
`AudioSignal` stays within its declared range; the published frequency is
also nonnegative for a nonnegative sample rate. -/
theorem claim2_signal_ranges (frame : List ℕ) (hb : ∀ x ∈ frame, x ≤ 255) :
    (0 ≤ rawVolume frame ∧ rawVolume frame ≤ 1)
    ∧ (0 ≤ rawBass frame ∧ rawBass frame ≤ 1)
    ∧ (0 ≤ rawMid frame ∧ rawMid frame ≤ 1)
    ∧ (0 ≤ rawTreble frame ∧ rawTreble frame ≤ 1)
    ∧ (∀ s r : ℝ, 0 ≤ s → s ≤ 1 → 0 ≤ r → r ≤ 1 →
        0 ≤ smoothStepR (smoothingFactors.volume : ℝ) s r
          ∧ smoothStepR (smoothingFactors.volume : ℝ) s r ≤ 1)
    ∧ (∀ f : ℚ,
        f = smoothingFactors.bass ∨ f = smoothingFactors.mid
          ∨ f = smoothingFactors.treble →
        ∀ s r : ℚ, 0 ≤ s → s ≤ 1 → 0 ≤ r → r ≤ 1 →
          0 ≤ smoothStep f s r ∧ smoothStep f s r ≤ 1)
    ∧ (∀ sampleRate : ℚ, 0 ≤ sampleRate →
        0 ≤ publishedFrequency frame sampleRate) := by
  refine ⟨⟨rawVolume_nonneg frame, rawVolume_le_one frame hb⟩,
    ⟨calculateBand_nonneg frame 0 10,
      calculateBand_le_one frame 0 10 (by omega) hb⟩,
    ⟨calculateBand_nonneg frame 10 40,
      calculateBand_le_one frame 10 40 (by omega) hb⟩,
    ⟨calculateBand_nonneg frame 40 128,
      calculateBand_le_one frame 40 128 (by omega) hb⟩, ?_, ?_, ?_⟩
  · intro s r hs0 hs1 hr0 hr1
    exact smoothStepR_mem _ s r (by norm_num [smoothingFactors])
      (by norm_num [smoothingFactors]) hs0 hs1 hr0 hr1
  · intro f hf s r hs0 hs1 hr0 hr1
    refine smoothStep_mem f s r ?_ ?_ hs0 hs1 hr0 hr1 <;>
      rcases hf with rfl | rfl | rfl <;> norm_num [smoothingFactors]
  · intro sampleRate hR
    unfold publishedFrequency dominantFrequency
    have h1 : (0 : ℚ) ≤ (maxIndex frame : ℚ) / (frame.length : ℚ) := by
      positivity
    have h2 : (0 : ℚ) ≤ sampleRate / 2 := by linarith
    positivity

/-- Witness for C2 at the concrete byte frame `[0, 255, 128]`. -/
theorem claim2_signal_ranges_witness :
    (0 ≤ rawVolume [0, 255, 128] ∧ rawVolume [0, 255, 128] ≤ 1)
    ∧ (0 ≤ rawBass [0, 255, 128] ∧ rawBass [0, 255, 128] ≤ 1)
    ∧ (0 ≤ rawMid [0, 255, 128] ∧ rawMid [0, 255, 128] ≤ 1)
    ∧ (0 ≤ rawTreble [0, 255, 128] ∧ rawTreble [0, 255, 128] ≤ 1)
    ∧ (∀ s r : ℝ, 0 ≤ s → s ≤ 1 → 0 ≤ r → r ≤ 1 →
        0 ≤ smoothStepR (smoothingFactors.volume : ℝ) s r
          ∧ smoothStepR (smoothingFactors.volume : ℝ) s r ≤ 1)
    ∧ (∀ f : ℚ,
        f = smoothingFactors.bass ∨ f = smoothingFactors.mid
          ∨ f = smoothingFactors.treble →
        ∀ s r : ℚ, 0 ≤ s → s ≤ 1 → 0 ≤ r → r ≤ 1 →
          0 ≤ smoothStep f s r ∧ smoothStep f s r ≤ 1)
    ∧ (∀ sampleRate : ℚ, 0 ≤ sampleRate →
        0 ≤ publishedFrequency [0, 255, 128] sampleRate) :=
  claim2_signal_ranges [0, 255, 128] (by decide)

/-- Claim C3: on every sampler tick over the analyzer's 128-bin frame, the
raw RMS volume is `sqrt(mean of squared samples) / 255` and each raw band is
the average of the magnitudes over its fixed window — bass bins 0-9, mid
bins 10-39, treble bins 40-127 — divided by 255. -/
theorem claim3_extraction_formulas (frame : List ℕ) (h : frame.length = 128) :
    rawVolume frame
        = Real.sqrt ((((frame.map fun x => x * x).sum : ℕ) : ℝ) / 128) / 255
    ∧ rawBass frame = ((frame.take 10).sum : ℚ) / 10 / 255
    ∧ rawMid frame = (((frame.drop 10).take 30).sum : ℚ) / 30 / 255
    ∧ rawTreble frame = (((frame.drop 40).take 88).sum : ℚ) / 88 / 255 := by
  refine ⟨?_, ?_, ?_, ?_⟩
  · unfold rawVolume
    rw [sumSquares_eq_sum, h]
    norm_num
  · unfold rawBass calculateBand
    rw [bandSum_eq_sum frame 0 10 (by omega) (by omega)]
    norm_num
  · unfold rawMid calculateBand
    rw [bandSum_eq_sum frame 10 40 (by omega) (by omega)]
    norm_num
  · unfold rawTreble calculateBand
    rw [bandSum_eq_sum frame 40 128 (by omega) (by omega)]
    norm_num

/-- Witness for C3 at the all-zero 128-bin frame. -/
theorem claim3_extraction_formulas_witness :
    rawVolume (List.replicate 128 0)
        = Real.sqrt (((((List.replicate 128 0 : List ℕ).map fun x => x * x).sum : ℕ) : ℝ) / 128)
            / 255
    ∧ rawBass (List.replicate 128 0)
        = ((((List.replicate 128 0 : List ℕ).take 10).sum : ℕ) : ℚ) / 10 / 255
    ∧ rawMid (List.replicate 128 0)
        = (((((List.replicate 128 0 : List ℕ).drop 10).take 30).sum : ℕ) : ℚ) / 30 / 255
    ∧ rawTreble (List.replicate 128 0)
        = (((((List.replicate 128 0 : List ℕ).drop 40).take 88).sum : ℕ) : ℚ) / 88 / 255 :=
  claim3_extraction_formulas (List.replicate 128 0) (by simp)

/-- Claim C4: on a frame holding one strictly maximal bin (here at index
`pre.length`, frame `pre ++ m :: post`), the published frequency equals
`(k / N) * (R / 2) / 1000` kilohertz. -/
theorem claim4_dominant_frequency (pre post : List ℕ) (m : ℕ) (sampleRate : ℚ)
    (hpre : ∀ x ∈ pre, x < m) (hpost : ∀ x ∈ post, x < m) :
    publishedFrequency (pre ++ m :: post) sampleRate
      = ((pre.length : ℚ) / (((pre ++ m :: post).length : ℕ) : ℚ))
          * (sampleRate / 2) / 1000 := by
  unfold publishedFrequency dominantFrequency
  rw [maxIndex_single_max pre post m hpre hpost]

/-- Witness for C4: frame `[1, 2, 9, 3]`, single maximal bin 9 at index 2,
sample rate 48000. -/
theorem claim4_dominant_frequency_witness :
    publishedFrequency (([1, 2] : List ℕ) ++ 9 :: [3]) 48000
      = ((([1, 2] : List ℕ).length : ℚ)
            / (((([1, 2] : List ℕ) ++ 9 :: [3]).length : ℕ) : ℚ))
          * ((48000 : ℚ) / 2) / 1000 :=
  claim4_dominant_frequency [1, 2] [3] 9 48000 (by decide) (by decide)

/-- Claim C5: the per-channel smoothing update is
`smoothed * factor + raw * (1 - factor)` with the distinct constants
volume 0.8, bass 0.85, mid 0.7, treble 0.6, each in `[0, 1)`, and under a
constant raw input `v` the smoothed value converges to `v`: for every
positive `ε` some number of ticks brings it within `ε`. -/
theorem claim5_smoothing_ema :
    smoothingFactors
        = { volume := 4/5, bass := 17/20, mid := 7/10, treble := 3/5 }
    ∧ (∀ (st : SmoothState) (rawVol : ℝ) (rawB rawM rawT : ℚ),
        (smoothUpdate st rawVol rawB rawM rawT).volume
            = smoothStepR (smoothingFactors.volume : ℝ) st.volume rawVol
        ∧ (smoothUpdate st rawVol rawB rawM rawT).bass
            = smoothStep smoothingFactors.bass st.bass rawB
        ∧ (smoothUpdate st rawVol rawB rawM rawT).mid
            = smoothStep smoothingFactors.mid st.mid rawM
        ∧ (smoothUpdate st rawVol rawB rawM rawT).treble
            = smoothStep smoothingFactors.treble st.treble rawT)
    ∧ (0 ≤ smoothingFactors.volume ∧ smoothingFactors.volume < 1
        ∧ 0 ≤ smoothingFactors.bass ∧ smoothingFactors.bass < 1
        ∧ 0 ≤ smoothingFactors.mid ∧ smoothingFactors.mid < 1
        ∧ 0 ≤ smoothingFactors.treble ∧ smoothingFactors.treble < 1)
    ∧ (∀ f : ℚ, 0 ≤ f → f < 1 → ∀ s v ε : ℚ, 0 < ε →
        ∃ n, |smoothIter f v s n - v| < ε) := by
  refine ⟨rfl, ?_, by norm_num [smoothingFactors], ?_⟩
  · intro st rawVol rawB rawM rawT
    exact ⟨rfl, rfl, rfl, rfl⟩
  · intro f hf0 hf1 s v ε hε
    exact smoothIter_converges f hf0 hf1 s v ε hε

/-- Witness for C5: with the volume factor 0.8, constant raw input 1 from a
start of 0 eventually comes within 1/100 of 1. -/
theorem claim5_smoothing_ema_witness :
    ∃ n, |smoothIter (4/5) 1 0 n - 1| < 1/100 :=
  claim5_smoothing_ema.2.2.2 (4/5) (by norm_num) (by norm_num) 0 1 (1/100)
    (by norm_num)

/-- Claim C6 as stated is false at the reachable channel value 0: a decay
tick maps 0 to 0, which is not a strict decrease. -/
theorem claim6_decay_counterexample :
    sphereStep false (1/2) 0 0 = 0
    ∧ decayIter 0 1 = decayIter 0 0
    ∧ ¬ decayIter 0 1 < decayIter 0 0 := by
  refine ⟨by norm_num [sphereStep], by norm_num [decayIter], by norm_num [decayIter]⟩

/-- Claim C6 (amended): when `isPlaying` is false (so `hasAudio` is false, and
likewise whenever volume is at or below the 0.01 silence threshold) every
non-skipped tick applies the pure decay `smoothed * 0.95` with `0.95 < 1`;
from a nonnegative start, repeated decay ticks never increase any channel,
never take it below 0, strictly decrease it while it is positive, and drive
it below every positive bound. -/
theorem claim6_decay_amended :
    (∀ (isPlaying : Bool) (volume : ℚ), isPlaying = false →
        hasAudio isPlaying volume = false)
    ∧ (∀ smoothing s raw : ℚ, sphereStep false smoothing s raw = s * (19/20))
    ∧ (19/20 : ℚ) < 1
    ∧ (∀ s : ℚ, 0 ≤ s → ∀ n : ℕ,
        0 ≤ decayIter s n ∧ decayIter s (n + 1) ≤ decayIter s n)
    ∧ (∀ s : ℚ, 0 < s → ∀ n : ℕ, decayIter s (n + 1) < decayIter s n)
    ∧ (∀ s : ℚ, 0 ≤ s → ∀ ε : ℚ, 0 < ε → ∃ n, decayIter s n < ε) := by
  refine ⟨?_, ?_, by norm_num, ?_, decayIter_strict, decayIter_converges⟩
  · intro isPlaying volume h
    subst h
    rfl
  · intro smoothing s raw
    simp [sphereStep]
  · intro s hs n
    exact ⟨decayIter_nonneg s hs n, decayIter_mono s hs n⟩

/-- Witness for C6 (amended): decay of the channel value 1/2. -/
theorem claim6_decay_amended_witness :
    (0 ≤ decayIter (1/2) 3 ∧ decayIter (1/2) (3 + 1) ≤ decayIter (1/2) 3)
    ∧ decayIter (1/2) (3 + 1) < decayIter (1/2) 3 :=
  ⟨claim6_decay_amended.2.2.2.1 (1/2) (by norm_num) 3,
    claim6_decay_amended.2.2.2.2.1 (1/2) (by norm_num) 3⟩

/-- Claim C1 as stated is false on the legacy analyzer variant
(src/unnamed/part_002): with the media element unpaused and the context
suspended, its tick publishes `isPlaying = true` although the playback state
is not `Running`. -/
theorem claim1_isPlaying_counterexample :
    legacyTickIsPlaying true false = true
    ∧ gateOf { isPlaying := legacyTickIsPlaying true false, paused := false,
               ctx := CtxState.suspended } ≠ PlaybackState.running := by
  decide

/-- Claim C1 (amended to the primary analyzer, src/useAudioAnalyzer.ts):
every reachable published state has `isPlaying = true` only when the gate is
`Running`, and each publication site sets `isPlaying` to true exactly when
the element is present and unpaused and the context state is `'running'`. -/
theorem claim1_isPlaying_invariant (init : PubState) (h : pubInv init)
    (evts : List AnalyzerEvent) :
    pubInv (List.foldl applyEvent init evts)
    ∧ (∀ (audioPresent paused : Bool) (ctx : CtxState),
        tickIsPlaying audioPresent paused ctx = true
          ↔ audioPresent = true ∧ paused = false ∧ ctx = CtxState.running)
    ∧ (∀ (paused : Bool) (ctx : CtxState),
        eventIsPlaying paused ctx = true
          ↔ paused = false ∧ ctx = CtxState.running) := by
  refine ⟨pubInv_trace init h evts, ?_, ?_⟩
  · intro audioPresent paused ctx
    cases audioPresent <;> cases paused <;> cases ctx <;> decide
  · intro paused ctx
    cases paused <;> cases ctx <;> decide

/-- Witness for C1 (amended): one tick published from the initial state. -/
theorem claim1_isPlaying_invariant_witness :
    pubInv (List.foldl applyEvent
        { isPlaying := false, paused := true, ctx := CtxState.suspended }
        [AnalyzerEvent.tick true false CtxState.running])
    ∧ (∀ (audioPresent paused : Bool) (ctx : CtxState),
        tickIsPlaying audioPresent paused ctx = true
          ↔ audioPresent = true ∧ paused = false ∧ ctx = CtxState.running)
    ∧ (∀ (paused : Bool) (ctx : CtxState),
        eventIsPlaying paused ctx = true
          ↔ paused = false ∧ ctx = CtxState.running) :=
  claim1_isPlaying_invariant
    { isPlaying := false, paused := true, ctx := CtxState.suspended }
    (by decide) [AnalyzerEvent.tick true false CtxState.running]

/-- Claim C7: while listeners are registered, a gesture whose
`ensureAudioContextActive()` resolves leaving the context running and whose
`play()` resolves reaches the Running configuration, bumps the unlock count,
and unregisters every gesture listener; a gesture on which either awaited
call rejects leaves the listeners registered (and the unlock count
unchanged) so the next gesture can retry; and over any gesture sequence at
most one successful unlock ever occurs. -/
theorem claim7_gesture_unlock :
    (∀ st : UnlockState, st.listeners = true →
        (handleGesture st ⟨false, true, false⟩).listeners = false
        ∧ (handleGesture st ⟨false, true, false⟩).isRunningState = true
        ∧ (handleGesture st ⟨false, true, false⟩).unlocks = st.unlocks + 1)
    ∧ (∀ (st : UnlockState) (g : Gesture),
        g.ensureThrows = true ∨ g.playThrows = true →
          (handleGesture st g).listeners = st.listeners
          ∧ (handleGesture st g).unlocks = st.unlocks)
    ∧ (∀ (ctx0 paused0 : Bool) (gs : List Gesture),
        (gestureRun { listeners := true, ctxRunning := ctx0, paused := paused0,
                      unlocks := 0 } gs).unlocks ≤ 1) := by
  refine ⟨?_, ?_, ?_⟩
  · intro st hl
    simp [handleGesture, hl, UnlockState.isRunningState]
  · intro st g hg
    unfold handleGesture
    rcases hg with h | h
    · simp only [h]
      split_ifs <;> simp
    · simp only [h]
      split_ifs <;> simp
  · intro ctx0 paused0 gs
    exact (gestureRun_inv _ ⟨by norm_num, fun _ => rfl⟩ gs).1

/-- Witness for C7: two consecutive fully successful gestures still produce
at most one unlock (the second finds the listeners already removed). -/
theorem claim7_gesture_unlock_witness :
    (gestureRun { listeners := true, ctxRunning := false, paused := true,
                  unlocks := 0 }
        [⟨false, true, false⟩, ⟨false, true, false⟩]).unlocks ≤ 1 :=
  claim7_gesture_unlock.2.2 false true [⟨false, true, false⟩, ⟨false, true, false⟩]

/-- Claim C8: a scheduled tick publishes one update and reschedules itself
whatever the transient pause flag and context state are (the tick's effect
does not depend on them at all); teardown cancels the pending callback; and
after teardown no later scheduler event runs a tick or produces an update. -/
theorem claim8_loop_lifecycle :
    (∀ (st : LoopState) (paused : Bool) (ctx : CtxState),
        st.scheduled = true →
          (loopStep st (.frame paused ctx)).scheduled = true
          ∧ (loopStep st (.frame paused ctx)).updates = st.updates + 1)
    ∧ (∀ (st : LoopState) (p p' : Bool) (c c' : CtxState),
        loopStep st (.frame p c) = loopStep st (.frame p' c'))
    ∧ (∀ st : LoopState, (loopStep st .teardown).scheduled = false)
    ∧ (∀ (st : LoopState) (evts : List LoopEvent),
        (loopRun (loopStep st .teardown) evts).updates = st.updates
        ∧ (loopRun (loopStep st .teardown) evts).scheduled = false) := by
  refine ⟨?_, ?_, fun st => rfl, ?_⟩
  · intro st paused ctx h
    simp [loopStep, h]
  · intro st p p' c c'
    rfl
  · intro st evts
    rw [loopRun_stopped (loopStep st .teardown) rfl evts]
    exact ⟨rfl, rfl⟩

/-- Witness for C8: a torn-down loop ignores two further frame boundaries. -/
theorem claim8_loop_lifecycle_witness :
    (loopRun (loopStep { scheduled := true, updates := 7 } .teardown)
        [LoopEvent.frame false CtxState.running,
          LoopEvent.frame true CtxState.suspended]).updates = 7
    ∧ (loopRun (loopStep { scheduled := true, updates := 7 } .teardown)
        [LoopEvent.frame false CtxState.running,
          LoopEvent.frame true CtxState.suspended]).scheduled = false :=
  claim8_loop_lifecycle.2.2.2 { scheduled := true, updates := 7 }
    [LoopEvent.frame false CtxState.running,
      LoopEvent.frame true CtxState.suspended]

/-- Claim C9 as stated is false: after reconstructing a closed context the
function returns `true` without consulting the fresh context's state, so
when the replacement context starts `'suspended'` the result does not equal
"the context is now running". -/
theorem claim9_ensure_counterexample :
    (ensureAudioContextActive true (some CtxState.closed) CtxState.suspended).1
        = true
    ∧ (ensureAudioContextActive true (some CtxState.closed)
          CtxState.suspended).2 ≠ some CtxState.running := by
  decide

/-- Claim C9 (amended): if the context is closed the call reconstructs the
graph and returns `true` regardless of the fresh context's state; if
suspended it resumes (running once `resume()` resolves) and returns `true`;
if running it returns `true`; with the refs missing it returns `false`; and
whenever the fresh context starts running, the boolean result does equal
whether the context is now running. -/
theorem claim9_ensure_amended :
    (∀ freshState : CtxState,
        ensureAudioContextActive true (some CtxState.closed) freshState
          = (true, some freshState))
    ∧ (∀ freshState : CtxState,
        ensureAudioContextActive true (some CtxState.suspended) freshState
          = (true, some CtxState.running))
    ∧ (∀ freshState : CtxState,
        ensureAudioContextActive true (some CtxState.running) freshState
          = (true, some CtxState.running))
    ∧ (∀ (ctx : Option CtxState) (freshState : CtxState),
        (ensureAudioContextActive false ctx freshState).1 = false)
    ∧ (∀ ctx : Option CtxState,
        (ensureAudioContextActive true ctx CtxState.running).1 = true
          ↔ (ensureAudioContextActive true ctx CtxState.running).2
              = some CtxState.running) := by
  refine ⟨fun _ => rfl, fun _ => rfl, fun _ => rfl, fun _ _ => rfl, ?_⟩
  intro ctx
  rcases ctx with _ | c
  · decide
  · cases c <;> decide

/-- Witness for C9 (amended): resuming a suspended context. -/
theorem claim9_ensure_amended_witness :
    ensureAudioContextActive true (some CtxState.suspended) CtxState.running
      = (true, some CtxState.running) :=
  claim9_ensure_amended.2.1 CtxState.running

/-- Claim C10: once initialization has completed, every further call to
`initializeAudio` is the identity — no additional audio element, context,
analyzer node or gesture listener is created — and any positive number of
calls on a fresh session leaves exactly one audio element, one context, one
analyzer node and one batch of five gesture listeners. -/
theorem claim10_init_idempotent :
    (∀ st : InitState, st.initialized = true → initializeAudio st = st)
    ∧ (∀ st : InitState,
        initializeAudio (initializeAudio st) = initializeAudio st)
    ∧ (∀ n : ℕ, 1 ≤ n →
        initializeAudio^[n] freshInit
          = { initialized := true, audioElems := 1, contexts := 1,
              analyzers := 1, gestureListeners := 5 }) := by
  refine ⟨?_, ?_, ?_⟩
  · intro st h
    simp [initializeAudio, h]
  · intro st
    by_cases h : st.initialized <;> simp [initializeAudio, h]
  · intro n hn
    induction n with
    | zero => omega
    | succ k ih =>
      rcases Nat.eq_zero_or_pos k with rfl | hk
      · rw [Function.iterate_one]
        decide
      · rw [Function.iterate_succ_apply', ih hk]
        decide

/-- Witness for C10: two initialization calls on a fresh session own exactly
one of each resource. -/
theorem claim10_init_idempotent_witness :
    initializeAudio^[2] freshInit
      = { initialized := true, audioElems := 1, contexts := 1,
          analyzers := 1, gestureListeners := 5 } :=
  claim10_init_idempotent.2.2 2 (by norm_num)

end WobblySphere
